import Mathlib

/-!
Verification of the BEAD partners-table extractor (src/Extract.py).

The Python source is shallowly embedded: PDF pages are modelled by the
grids the table-extraction collaborator returns for them (`RawGrid`,
`DocTables`), cells are `Option String` (None / missing cell), and the
floating-point score weight 0.01 is modelled exactly as the rational
1/100.  The optional fuzzywuzzy similarity capability (`fuzz`) is an
abstract parameter `Ratio`: `none` models the failed import, `some r`
models an arbitrary similarity oracle.  Regex character classes \w and
\s are modelled over their ASCII meaning, which covers every literal
pattern the program uses.
-/

namespace Extract

/-- Python `\s` whitespace class (ASCII part). -/
def pySpace (c : Char) : Bool :=
  c = ' ' || c = '\t' || c = '\n' || c = '\r' || c = Char.ofNat 0x0b || c = Char.ofNat 0x0c

/-- Python `\w` word-character class (ASCII part). -/
def isWordChar (c : Char) : Bool :=
  c.isAlphanum || c = '_'

/-- Step 1 of `norm`: the five NBSP-variant characters U+00A0, U+2007,
U+202F, U+2009 and U+200B are replaced by a space. -/
def nbspFix (c : Char) : Char :=
  if c = Char.ofNat 0xA0 || c = Char.ofNat 0x2007 || c = Char.ofNat 0x202F
      || c = Char.ofNat 0x2009 || c = Char.ofNat 0x200B then ' ' else c

/-- Scanner state for the hyphenation-join substitution: either normal scanning
(remembering whether the previous character was a word character, for the
lookbehind), or inside a tentative `-\s+` match holding the characters consumed
so far. -/
inductive HJState
  | normal (prevWord : Bool)
  | hyphen (pending : List Char)

/-- One step of the left-to-right scan implementing
`re.sub(r"(?<=\w)-\s+(?=\w)", "", s)`: a hyphen preceded by a word character
opens a tentative match; whitespace extends it; a word character after at least
one whitespace confirms it (the pending characters are deleted); anything else
aborts it (the pending characters are emitted unchanged). -/
def hjStep : List Char × HJState → Char → List Char × HJState
  | (out, .normal prevWord), c =>
    if c = '-' && prevWord then (out, .hyphen ['-'])
    else (out ++ [c], .normal (isWordChar c))
  | (out, .hyphen pending), c =>
    if pySpace c then (out, .hyphen (pending ++ [c]))
    else if isWordChar c && 2 ≤ pending.length then (out ++ [c], .normal true)
    else (out ++ pending ++ [c], .normal (isWordChar c))

/-- Step 2 of `norm`: the hyphenation-join substitution
`re.sub(r"(?<=\w)-\s+(?=\w)", "", s)`.  A match still pending at the end of the
string has no word character after it, so it fails and its characters are kept. -/
def hyphenJoin (l : List Char) : List Char :=
  match l.foldl hjStep ([], .normal false) with
  | (out, .normal _) => out
  | (out, .hyphen pending) => out ++ pending

/-- First half of step 3 of `norm` (and of the Assembler's cleanup):
`re.sub(r"\s+", " ", s)` — every maximal whitespace run becomes one space. -/
def collapseWs : List Char → List Char
  | [] => []
  | [c] => [if pySpace c then ' ' else c]
  | c :: d :: rest =>
    if pySpace c && pySpace d then collapseWs (d :: rest)
    else (if pySpace c then ' ' else c) :: collapseWs (d :: rest)

/-- Removal of trailing characters satisfying `p` (the right half of Python's
`str.strip()`). -/
def dropTrailing (p : Char → Bool) : List Char → List Char
  | [] => []
  | c :: rest =>
    let r := dropTrailing p rest
    if r = [] && p c then [] else c :: r

/-- Python `str.strip()`: leading and trailing whitespace removed. -/
def pyStripL (l : List Char) : List Char :=
  dropTrailing pySpace (l.dropWhile pySpace)

/-- Python `str.strip()` on `String`. -/
def pyStripS (s : String) : String :=
  String.mk (pyStripL s.toList)

/-- The helper `norm` of Extract.py on the character-list level:
NBSP replacement, hyphenation join, whitespace collapse, strip. -/
def normL (l : List Char) : List Char :=
  pyStripL (collapseWs (hyphenJoin (l.map nbspFix)))

/-- A table cell: `none` models Python `None`. -/
abbrev Cell := Option String

/-- The helper `norm(x)` of Extract.py: `None` becomes `""`, then NBSP
replacement, hyphenation join, whitespace collapse and strip. -/
def norm (x : Cell) : String :=
  String.mk (normL (x.getD "").toList)

/-- Python truthiness of a cell: `None` and `""` are falsy. -/
def cellTruthy (c : Cell) : Bool :=
  match c with
  | none => false
  | some s => s ≠ ""

/-- Case-insensitive character equality (via `Char.toLower`). -/
def chEqCI (a b : Char) : Bool :=
  a.toLower = b.toLower

/-- Case-insensitive list-prefix test. -/
def isPrefixCI : List Char → List Char → Bool
  | [], _ => true
  | _ :: _, [] => false
  | a :: as, b :: bs => chEqCI a b && isPrefixCI as bs

/-- Whole-word match of `w` at the start of `l` given whether the character
just before `l` is a word character: models a `\bw\b` regex hit anchored here
(for `w` made of word characters). -/
def wordAt (w l : List Char) (prevWord : Bool) : Bool :=
  !prevWord && isPrefixCI w l &&
    (match l.drop w.length with
     | [] => true
     | c :: _ => !isWordChar c)

/-- Scan of `l` for a whole-word, case-insensitive occurrence of `w`,
tracking the lookbehind character class; models `re.search(r"\bw\b", l, re.I)`. -/
def containsWordAux (w : List Char) : Bool → List Char → Bool
  | _, [] => false
  | prevWord, c :: rest =>
    wordAt w (c :: rest) prevWord || containsWordAux w (isWordChar c) rest

/-- `re.search(r"\bw\b", s, re.IGNORECASE) is not None` for a word `w` made of
word characters. -/
def containsWord (w : String) (s : String) : Bool :=
  containsWordAux w.toList false s.toList

/-- Contiguous-sublist (substring) test on character lists, case-exact;
models Python's `w in s` on strings. -/
def isSubstrL (w : List Char) : List Char → Bool
  | [] => decide (w = [])
  | c :: rest => isPrefixCI w (c :: rest) || isSubstrL w rest

/-- Python `w in s` for lowercase `w` against an already lowercased `s`
(`isPrefixCI` is case-insensitive, which agrees with case-exact matching
there). -/
def containsSub (w : String) (s : String) : Bool :=
  isSubstrL w.toList s.toList

/-- Python `s.lower()` (ASCII case folding). -/
def lowerStr (s : String) : String :=
  String.mk (s.toList.map Char.toLower)

/-- `DESC_HDR_RE.search(norm(cell))` guarded by cell truthiness, exactly the
test the candidate scan applies to each header cell (Extract.py lines 75-79). -/
def descCellB (c : Cell) : Bool :=
  cellTruthy c && containsWord "description" (norm c)

/-- `\bpartner(s)?\b`, `\bpartnership(s)?\b` or `\bprovider(s)?\b` against a
normalized cell text: the explicit PARTNER_HDR_PATTERNS of Extract.py. -/
def partnerPatB (s : String) : Bool :=
  containsWord "partner" s || containsWord "partners" s ||
  containsWord "partnership" s || containsWord "partnerships" s ||
  containsWord "provider" s || containsWord "providers" s

/-- First index in a list whose element satisfies `p` (the `for i, cell in
enumerate(header)` search loops of Extract.py). -/
def firstIdx (p : α → Bool) : List α → Option Nat
  | [] => none
  | a :: l => if p a then some 0 else (firstIdx p l).map (· + 1)

/-- The strict description-column search of the candidate scan (Extract.py
lines 74-80): first truthy header cell whose normalized text has a whole-word
`description`. -/
def descIdx (header : List Cell) : Option Nat :=
  firstIdx descCellB header

/-- The explicit partner-column search of the candidate scan (lines 86-97):
first truthy header cell matching one of the PARTNER_HDR_PATTERNS. -/
def partnerIdxExact (header : List Cell) : Option Nat :=
  firstIdx (fun c => cellTruthy c && partnerPatB (norm c)) header

/-- The optional fuzzy-similarity capability: `none` models a failed
`fuzzywuzzy` import (`fuzz = None`), `some r` an arbitrary ratio oracle. -/
abbrev Ratio := Option (String → String → Nat)

/-- The fuzzy fallback of the candidate scan (lines 100-111): first truthy
header cell whose lowercased normalized text scores at least 75 against one of
partner / partners / partnership / provider. -/
def partnerIdxFuzzy (r : String → String → Nat) (header : List Cell) : Option Nat :=
  firstIdx (fun c => cellTruthy c &&
    (75 ≤ r (lowerStr (norm c)) "partner" || 75 ≤ r (lowerStr (norm c)) "partners" ||
     75 ≤ r (lowerStr (norm c)) "partnership" || 75 ≤ r (lowerStr (norm c)) "provider")) header

/-- The full partner-column resolution of the candidate scan: explicit
patterns first, fuzzy fallback only when available and needed (lines 86-115). -/
def partnerIdx (ratio : Ratio) (header : List Cell) : Option Nat :=
  match partnerIdxExact header with
  | some i => some i
  | none =>
    match ratio with
    | some r => partnerIdxFuzzy r header
    | none => none

/-- `norm(row[i]) if i < len(row) else ""` — out-of-range and `None` cells
normalize to the empty string. -/
def cellNorm (row : List Cell) (i : Nat) : String :=
  norm (row.getD i none)

/-- A raw table grid as returned by the extraction collaborator: rows of
optional cell texts, row 0 conventionally the header. -/
abbrev RawGrid := List (List Cell)

/-- The grids of a whole document, page by page (page `i+1` owns entry `i`). -/
abbrev DocTables := List (List RawGrid)

/-- `content_count` of the candidate scan (lines 118-125): data rows where the
partner or the description cell is non-empty after normalization. -/
def contentCount (table : RawGrid) (pIdx dIdx : Nat) : Nat :=
  (table.drop 1).countP fun row =>
    !row.isEmpty && (cellNorm row pIdx ≠ "" || cellNorm row dIdx ≠ "")

/-- `header_text = " ".join([norm(c) for c in header if c])` (line 129). -/
def headerTextCand (header : List Cell) : String :=
  String.intercalate " " ((header.filter cellTruthy).map norm)

/-- `header_score` of the candidate scan (lines 128-133): base 10, plus 2 for
a whole-word `partner(s)` in the header text, plus 1 for `partnership(s)`. -/
def headerScoreQ (header : List Cell) : ℚ :=
  10 + (if containsWord "partner" (headerTextCand header)
          || containsWord "partners" (headerTextCand header) then 2 else 0)
     + (if containsWord "partnership" (headerTextCand header)
          || containsWord "partnerships" (headerTextCand header) then 1 else 0)

/-- A qualifying table as recorded by `find_candidate_tables` (lines 138-147). -/
structure Candidate where
  page : Nat
  table_idx : Nat
  table : RawGrid
  partner_col : Nat
  desc_col : Nat
  ncols : Nat
  content_count : Nat
  score : ℚ
deriving DecidableEq, Repr

/-- The per-table body of `find_candidate_tables` (lines 68-147): tables with
fewer than two rows are skipped, a description header is a strict gate, a
partner-like header is required, then content count and score are computed. -/
def scanTable (ratio : Ratio) (pno tIdx : Nat) (table : RawGrid) : Option Candidate :=
  if table.length < 2 then none
  else
    let header := table.headD []
    match descIdx header with
    | none => none
    | some dIdx =>
      match partnerIdx ratio header with
      | none => none
      | some pIdx =>
        let cc := contentCount table pIdx dIdx
        some { page := pno, table_idx := tIdx, table := table,
               partner_col := pIdx, desc_col := dIdx, ncols := header.length,
               content_count := cc,
               score := headerScoreQ header + (cc : ℚ) / 100 }

/-- The `for t_idx, table in enumerate(tables)` loop of `find_candidate_tables`. -/
def tablesScan (ratio : Ratio) (pno : Nat) : List RawGrid → Nat → List Candidate
  | [], _ => []
  | t :: rest, tIdx => (scanTable ratio pno tIdx t).toList ++ tablesScan ratio pno rest (tIdx + 1)

/-- The `for pno, page in enumerate(pdf.pages, start=1)` loop of
`find_candidate_tables`. -/
def candScan (ratio : Ratio) : DocTables → Nat → List Candidate
  | [], _ => []
  | ts :: rest, pno => tablesScan ratio pno ts 0 ++ candScan ratio rest (pno + 1)

/-- `find_candidate_tables(pdf)` (Extract.py lines 56-148) over the grids the
collaborator yields for each page. -/
def find_candidate_tables (ratio : Ratio) (grids : DocTables) : List Candidate :=
  candScan ratio grids 1

/-- The per-row body of `extract_rows_from_table` (Extract.py lines 152-164):
read partner and description cells (out-of-range as empty); when the
description is empty and the row reaches the description index, fall back to
joining with single spaces the normalizations of all truthy cells from the
description index to the end of the row. -/
def rowRecord (partner_col desc_col : Nat) (row : List Cell) : String × String :=
  let partner := cellNorm row partner_col
  let description := cellNorm row desc_col
  let description :=
    if description = "" ∧ desc_col < row.length then
      let desc_parts := (row.drop desc_col).filterMap fun c =>
        if cellTruthy c then some (norm c) else none
      if desc_parts ≠ [] then String.intercalate " " desc_parts else description
    else description
  (partner, description)

/-- `extract_rows_from_table(table, partner_col, desc_col)` (lines 150-165):
empty rows are skipped and a pair is emitted only when partner or description
is non-empty after stripping. -/
def extract_rows_from_table (table : RawGrid) (partner_col desc_col : Nat) :
    List (String × String) :=
  (table.drop 1).filterMap fun row =>
    if row.isEmpty then none
    else
      let r := rowRecord partner_col desc_col row
      if pyStripS r.1 ≠ "" ∨ pyStripS r.2 ≠ "" then some r else none

/-- The fuzzy fallback of the Continuation Matcher (lines 209-217); its target
word list (partner / provider / partnership) differs from the candidate scan's
and no truthiness guard is applied to the cells. -/
def contFuzzyIdx (r : String → String → Nat) (header : List Cell) : Option Nat :=
  firstIdx (fun c =>
    75 ≤ r (lowerStr (norm c)) "partner" || 75 ≤ r (lowerStr (norm c)) "provider" ||
    75 ≤ r (lowerStr (norm c)) "partnership") header

/-- Loop body of the continuation scan for one table (Extract.py lines
190-252).  Returns the extracted rows when the table is accepted AND yields at
least one row, `none` otherwise (in which case the Python `for` loop moves on
to the next table of the page).

On the repeated-header path, when the local partner column is unresolved and
the positional fallback does not apply, the table is skipped; the
`local_desc` value is always resolvable there (a whole-word `description` hit
in the joined header text comes from some single cell), so the `none` arm for
it is unreachable — Python would raise on it. -/
def tryContTable (ratio : Ratio) (best_partner_col best_desc_col : Nat)
    (table : RawGrid) : Option (List (String × String)) :=
  if table.isEmpty then none
  else
    let header := table.headD []
    let header_text := lowerStr (headerTextCand header)
    if containsWord "description" header_text then
      let local_desc := firstIdx (fun cell => containsWord "description" (norm cell)) header
      let local_partner := firstIdx (fun cell => partnerPatB (norm cell)) header
      let local_partner :=
        match local_partner, ratio with
        | none, some r => contFuzzyIdx r header
        | lp, _ => lp
      let pair :=
        if local_partner = none ∧ max best_partner_col best_desc_col + 1 ≤ header.length
        then (some best_partner_col, some (local_desc.getD best_desc_col))
        else (local_partner, local_desc)
      match pair with
      | (none, _) => none
      | (some lp, ld) =>
        match ld with
        | none => none
        | some ldv =>
          let rows := extract_rows_from_table table lp ldv
          if rows = [] then none else some rows
    else
      let partner_like_count := (table.drop 1).countP fun r =>
        !r.isEmpty &&
          (if decide (best_partner_col < r.length) && cellNorm r best_partner_col ≠ "" then true
           else decide (0 < r.length) && cellNorm r 0 ≠ "")
      if 1 ≤ partner_like_count ∧ max best_partner_col best_desc_col + 1 ≤ header.length then
        let rows := extract_rows_from_table table best_partner_col best_desc_col
        if rows = [] then none else some rows
      else none

/-- The `for table in tables` loop of the continuation scan: the first table
whose `tryContTable` succeeds supplies the page's rows. -/
def contPage (ratio : Ratio) (best_partner_col best_desc_col : Nat)
    (tables : List RawGrid) : Option (List (String × String)) :=
  tables.findSome? (tryContTable ratio best_partner_col best_desc_col)

/-- The `while page <= num_pages` loop of `extract_consecutive_continuations`
(lines 179-257): visit pages in order, stop at the first page with no accepted
continuation, accumulate rows and used page numbers. -/
def contGo (ratio : Ratio) (best_partner_col best_desc_col : Nat) :
    List (List RawGrid) → Nat → List (String × String) × List Nat
  | [], _ => ([], [])
  | ts :: rest, pno =>
    match contPage ratio best_partner_col best_desc_col ts with
    | none => ([], [])
    | some rows =>
      let r := contGo ratio best_partner_col best_desc_col rest (pno + 1)
      (rows ++ r.1, pno :: r.2)

/-- `extract_consecutive_continuations(pdf, start_page, best_ncols,
best_partner_col, best_desc_col)` (lines 167-259).  `best_ncols` is accepted
but, as in the source, never used. -/
def extract_consecutive_continuations (ratio : Ratio) (grids : DocTables)
    (start_page best_ncols best_partner_col best_desc_col : Nat) :
    List (String × String) × List Nat :=
  contGo ratio best_partner_col best_desc_col (grids.drop start_page) (start_page + 1)

/-- The fixed required-word set of the Nevada special handler
(`NEV_HDR_WORDS`, line 45). -/
def nevHdrWords : List String := ["provider", "award", "locations"]

/-- The header test of `extract_nevada_special` (lines 269-273): at least two
rows, and every required word a plain substring of the lowercased joined
header text. -/
def nevadaTableOk (table : RawGrid) : Bool :=
  2 ≤ table.length &&
    nevHdrWords.all fun w => containsSub w (lowerStr (headerTextCand (table.headD [])))

/-- The description built by the Nevada handler for one data row (lines
280-281): normalizations of the truthy cells after column 0, joined with
a vertical-bar separator. -/
def nevadaDesc (row : List Cell) : String :=
  String.intercalate " | " ((row.drop 1).filterMap fun c =>
    if cellTruthy c then some (norm c) else none)

/-- The data-row loop of the Nevada handler on one accepted table (lines
276-283): column 0 is the provider, the rest the description, and a row is
kept only when the provider is non-empty after stripping. -/
def nevadaRows (table : RawGrid) : List (String × String) :=
  (table.drop 1).filterMap fun row =>
    if row.isEmpty then none
    else
      let provider := if 1 ≤ row.length then norm (row.getD 0 none) else ""
      if pyStripS provider ≠ "" then some (provider, nevadaDesc row) else none

/-- The per-page table loop of the Nevada handler: every accepted table
contributes its rows and records the page number. -/
def nevadaPage (pno : Nat) (tables : List RawGrid) :
    List (String × String) × List Nat :=
  tables.foldr (fun t acc =>
    if nevadaTableOk t then (nevadaRows t ++ acc.1, pno :: acc.2) else acc) ([], [])

/-- The page loop of `extract_nevada_special` (lines 266-283). -/
def nevadaScan : DocTables → Nat → List (String × String) × List Nat
  | [], _ => ([], [])
  | ts :: rest, pno =>
    let here := nevadaPage pno ts
    let r := nevadaScan rest (pno + 1)
    (here.1 ++ r.1, here.2 ++ r.2)

/-- First-seen-preserving removal of duplicates with an explicit seen
accumulator (the effect of pandas `drop_duplicates()` on the row list). -/
def dedupAux [DecidableEq α] (seen : List α) : List α → List α
  | [] => []
  | x :: xs =>
    if x ∈ seen then dedupAux seen xs else x :: dedupAux (x :: seen) xs

/-- `df.drop_duplicates()`: keep the first occurrence of each row. -/
def dedupKeepFirst [DecidableEq α] (l : List α) : List α :=
  dedupAux [] l

/-- Ascending insertion of a number into a sorted list (helper for
`sorted(...)`). -/
def insertAsc (n : Nat) : List Nat → List Nat
  | [] => [n]
  | m :: rest => if n ≤ m then n :: m :: rest else m :: insertAsc n rest

/-- Python `sorted(set(l))`: distinct elements in ascending order. -/
def sortedDedup (l : List Nat) : List Nat :=
  (dedupKeepFirst l).foldr insertAsc []

/-- `extract_nevada_special(pdf_path)` (lines 261-288): rows of all accepted
tables in page order, and the sorted set of contributing page numbers. -/
def extract_nevada_special (grids : DocTables) : List (String × String) × List Nat :=
  let r := nevadaScan grids 1
  (r.1, sortedDedup r.2)

/-- The per-field cleanup of the Assembler (line 328):
`str.replace(r"\s+", " ", regex=True).str.strip()`. -/
def asmNorm (s : String) : String :=
  String.mk (pyStripL (collapseWs s.toList))

/-- The dedupe-and-cleanup block of `extract_best_partner_table` (lines
326-330): normalize whitespace on both fields, drop rows with both fields
empty, drop exact duplicates keeping first occurrences. -/
def assemble (rows : List (String × String)) : List (String × String) :=
  dedupKeepFirst (((rows.map fun r => (asmNorm r.1, asmNorm r.2)).filter
    fun r => r.1 ≠ "" ∨ r.2 ≠ ""))

/-- `sorted(candidates, key=lambda c: (-c["score"], c["page"]))[0]` (lines
303-304): the candidate with maximal score, earliest page among score ties,
earliest scan position among full ties — computed by a left fold that
replaces the current best only on a strictly better key. -/
def pickBest : List Candidate → Option Candidate
  | [] => none
  | c :: cs =>
    some (cs.foldl (fun b x =>
      if b.score < x.score ∨ (x.score = b.score ∧ x.page < b.page) then x else b) c)

/-- `extract_best_partner_table(pdf_path)` (lines 290-335): best candidate by
score; its rows; consecutive continuations appended when non-empty; the
assembled, deduplicated result with the sorted set of contributing pages. -/
def extract_best_partner_table (ratio : Ratio) (grids : DocTables) :
    List (String × String) × List Nat :=
  match pickBest (find_candidate_tables ratio grids) with
  | none => ([], [])
  | some best =>
    let rows := extract_rows_from_table best.table best.partner_col best.desc_col
    let cont := extract_consecutive_continuations ratio grids best.page best.ncols
      best.partner_col best.desc_col
    let rows := if cont.1 ≠ [] then rows ++ cont.1 else rows
    let pages_used := if cont.1 ≠ [] then best.page :: cont.2 else [best.page]
    if rows = [] then ([], [])
    else (assemble rows, sortedDedup pages_used)

/-- A page as the core sees it: the grids the table-extraction collaborator
returns for it, and its freeform text (which Extract.py never reads). -/
structure Page where
  tables : List RawGrid
  text : String
deriving DecidableEq

/-- A document: its pages. -/
structure Pdf where
  pages : List Page
deriving DecidableEq

/-- The grids of a document, page by page. -/
def Pdf.grids (pdf : Pdf) : DocTables :=
  pdf.pages.map Page.tables

/-- `"nevada" in state.lower()` (line 345). -/
def nevadaNameB (state : String) : Bool :=
  containsSub "nevada" (lowerStr state)

/-- The document-level fallback policy of `process_pdf_file` (lines 337-351):
strict extraction first; when it is empty and the state label contains
`nevada`, the Nevada special handler; otherwise the strict result stands
(an empty result produces only a warning). -/
def process_pdf_file (ratio : Ratio) (state : String) (pdf : Pdf) :
    List (String × String) × List Nat :=
  let r := extract_best_partner_table ratio pdf.grids
  if r.1 = [] ∧ nevadaNameB state then extract_nevada_special pdf.grids else r

/-! ### Specification-side definitions

`dedupFirstSeen_spec` renders the Assembler specification sentence "removes
exact-duplicate (entity,description) pairs while preserving first-seen order"
as a recursive definition, to be compared with the source-side
`dedupKeepFirst`. -/

/-- Keep the first occurrence of each element, in first-seen order: the head
stays and all its later duplicates are removed before recursing. -/
def dedupFirstSeen_spec [DecidableEq α] : List α → List α
  | [] => []
  | a :: l => a :: dedupFirstSeen_spec (l.filter fun x => x ≠ a)
termination_by l => l.length
decreasing_by
  exact Nat.lt_succ_of_le (List.length_filter_le _ _)

/-! ### Characterization of collapsed whitespace (proof-side predicates) -/

/-- A character is acceptable in collapsed text: not whitespace, or exactly a
space. -/
def okCh (c : Char) : Bool :=
  !pySpace c || c = ' '

/-- Text in the image of `collapseWs`: only plain spaces as whitespace and no
two adjacent whitespace characters. -/
def isCollapsed : List Char → Bool
  | [] => true
  | [c] => okCh c
  | c :: d :: rest => okCh c && !(pySpace c && pySpace d) && isCollapsed (d :: rest)

/-! ### Concrete inputs used by the claim theorems and witnesses -/

/-- A two-row table whose header has no `description` token. -/
def exT1 : RawGrid := [[some "Partner", some "Services"], [some "Alpha", some "Fiber"]]

/-- Header with `Partnership` (header score 11), one data row. -/
def tA3 : RawGrid := [[some "Partnership", some "Description"], [some "Alpha", some "Beta"]]

/-- Header with `Provider` only (header score 10) and 102 data rows. -/
def tB3 : RawGrid :=
  [[some "Provider", some "Description"]] ++ List.replicate 102 [some "Alpha", some "Beta"]

/-- Header with `Provider` only (header score 10), one data row. -/
def tC3 : RawGrid := [[some "Provider", some "Description"], [some "Alpha", some "Beta"]]

/-- One page holding the three tables above. -/
def exG3 : DocTables := [[tA3, tB3, tC3]]

/-- The candidate the scan produces for `tA3` in `exG3` (score 11.01). -/
def exCand3A : Candidate :=
  { page := 1, table_idx := 0, table := tA3, partner_col := 0, desc_col := 1,
    ncols := 2, content_count := 1,
    score := headerScoreQ (tA3.headD []) + (contentCount tA3 0 1 : ℚ) / 100 }

/-- The candidate the scan produces for `tB3` in `exG3` (score 11.02). -/
def exCand3B : Candidate :=
  { page := 1, table_idx := 1, table := tB3, partner_col := 0, desc_col := 1,
    ncols := 2, content_count := 102,
    score := headerScoreQ (tB3.headD []) + (contentCount tB3 0 1 : ℚ) / 100 }

/-- The candidate the scan produces for `tC3` in `exG3` (score 10.01). -/
def exCand3C : Candidate :=
  { page := 1, table_idx := 2, table := tC3, partner_col := 0, desc_col := 1,
    ncols := 2, content_count := 1,
    score := headerScoreQ (tC3.headD []) + (contentCount tC3 0 1 : ℚ) / 100 }

/-- A table whose single header cell `Partner Description` matches both the
description pattern and the partner pattern. -/
def exT5 : RawGrid := [[some "Partner Description", some "X"], [some "Alpha", some "Beta"]]

/-- One page holding `exT5`. -/
def exG5 : DocTables := [[exT5]]

/-- The candidate the scan produces for `exT5`: both column indices are 0. -/
def exCand5 : Candidate :=
  { page := 1, table_idx := 0, table := exT5, partner_col := 0, desc_col := 0,
    ncols := 2, content_count := 1,
    score := headerScoreQ (exT5.headD []) + (contentCount exT5 0 0 : ℚ) / 100 }

/-- The spillover row of the specification example. -/
def exRow6 : List Cell :=
  [some "Acme Corp", some "", some "provides", some "broadband", some "service"]

/-- A continuation table with a repeated header but no data rows. -/
def exT7a : RawGrid := [[some "Partner", some "Description"]]

/-- A continuation table with a repeated header and one data row. -/
def exT7b : RawGrid := [[some "Partner", some "Description"], [some "Acme", some "Fiber"]]

/-- A document where page 2 carries `exT7a` before `exT7b`. -/
def exG7 : DocTables := [[], [exT7a, exT7b]]

/-- A structurally matching continuation table (repeated header, one row). -/
def exMatchT : RawGrid := [[some "Partner", some "Description"], [some "X", some "Y"]]

/-- A table that is not accepted as a continuation: no repeated header and no
non-empty partner-like cell. -/
def exNoMatchT : RawGrid := [[some "Other", some "Stuff"], [some "", some ""]]

/-- A document with matching continuation tables on pages 3, 4 and 6 but not
on page 5 (the spec's contiguity example, start page 2). -/
def exG2 : DocTables := [[], [exMatchT], [exMatchT], [exMatchT], [exNoMatchT], [exMatchT]]

/-- A Nevada-style table on the first page of `exG8`. -/
def exT8a : RawGrid :=
  [[some "Provider", some "Award Amount", some "Locations Served"],
   [some "Alpha Telecom", some "100", some "Rural"]]

/-- A Nevada-style table on the third page of `exG8`. -/
def exT8b : RawGrid :=
  [[some "Provider", some "Award Amount", some "Locations Served"],
   [some "Beta Telecom", some "200", some "Urban"]]

/-- The data row of `exT8b`. -/
def exRow8 : List Cell := [some "Beta Telecom", some "200", some "Urban"]

/-- A document with Nevada-style tables on the non-contiguous pages 1 and 3
and no `description` header anywhere. -/
def exG8 : DocTables := [[exT8a], [], [exT8b]]

/-- The duplicate-row table of the specification's Assembler example. -/
def exT9 : RawGrid :=
  [[some "Partner Name", some "Description of Services"],
   [some "Acme Co", some "Fiber buildout"], [some "Acme Co", some "Fiber buildout"]]

/-- One page holding `exT9`. -/
def exG9 : DocTables := [[exT9]]

/-- A Nevada-style table whose second data row has an empty first cell but a
non-empty remainder. -/
def exTN10 : RawGrid :=
  [[some "Provider", some "Award", some "Locations"],
   [some "Acme", some "x", some "y"], [some "", some "stuff"]]

/-- One page holding `exTN10`. -/
def exG10 : DocTables := [[exTN10]]

/-- A general-pipeline table whose data row has an empty partner cell and a
non-empty description cell. -/
def exT10gen : RawGrid := [[some "h1", some "h2"], [some "", some "desc"]]

/-- A document with only freeform text: one page, no table grids. -/
def exPdf4 : Pdf :=
  ⟨[⟨[], "Acme Communications LLC provides fiber internet service to rural areas"⟩]⟩

/-- A document with a Nevada-style table and no `description` header. -/
def exPdfNev : Pdf := ⟨[⟨[exT8a], "awards list"⟩]⟩

/-! ### Lemmas about the first-index search -/

lemma firstIdx_eq_none {p : α → Bool} :
    ∀ {l : List α}, (∀ a ∈ l, p a = false) → firstIdx p l = none := by
  intro l
  induction l with
  | nil => intro _; rfl
  | cons a l ih =>
    intro h
    have ha : p a = false := h a (List.mem_cons_self a l)
    simp [firstIdx, ha, ih fun x hx => h x (List.mem_cons_of_mem a hx)]

lemma exists_of_firstIdx_eq_some {p : α → Bool} :
    ∀ {l : List α} {i : Nat}, firstIdx p l = some i → ∃ a ∈ l, p a = true := by
  intro l
  induction l with
  | nil => intro i h; simp [firstIdx] at h
  | cons a l ih =>
    intro i h
    by_cases ha : p a = true
    · exact ⟨a, List.mem_cons_self a l, ha⟩
    · rw [firstIdx, if_neg (by simp [ha])] at h
      rcases Option.map_eq_some'.mp h with ⟨j, hj, _⟩
      rcases ih hj with ⟨b, hb, hpb⟩
      exact ⟨b, List.mem_cons_of_mem a hb, hpb⟩

/-! ### Lemmas about the candidate scan -/

lemma scanTable_none_of_noDesc (ratio : Ratio) (pno tIdx : Nat) (table : RawGrid)
    (h : ∀ cell ∈ table.headD [], descCellB cell = false) :
    scanTable ratio pno tIdx table = none := by
  have hd : descIdx (table.headD []) = none := firstIdx_eq_none h
  unfold scanTable
  split
  · rfl
  · dsimp only
    rw [hd]

lemma scanTable_some_elim {ratio : Ratio} {pno tIdx : Nat} {tbl : RawGrid} {c : Candidate}
    (h : scanTable ratio pno tIdx tbl = some c) :
    c.table = tbl ∧ descIdx (tbl.headD []) = some c.desc_col ∧
    partnerIdx ratio (tbl.headD []) = some c.partner_col ∧
    c.content_count = contentCount tbl c.partner_col c.desc_col ∧
    c.score = headerScoreQ (tbl.headD []) + (c.content_count : ℚ) / 100 := by
  unfold scanTable at h
  dsimp only at h
  split at h
  · exact absurd h (by simp)
  · split at h
    next => exact absurd h (by simp)
    next dIdx hd =>
      split at h
      next => exact absurd h (by simp)
      next pIdx hp =>
        simp only [Option.some.injEq] at h
        subst h
        exact ⟨rfl, hd, hp, rfl, rfl⟩

lemma mem_tablesScan {ratio : Ratio} {pno : Nat} {c : Candidate} :
    ∀ {ts : List RawGrid} {tIdx : Nat}, c ∈ tablesScan ratio pno ts tIdx →
      ∃ tIdx' t, scanTable ratio pno tIdx' t = some c := by
  intro ts
  induction ts with
  | nil => intro tIdx h; simp [tablesScan] at h
  | cons t rest ih =>
    intro tIdx h
    rw [tablesScan, List.mem_append] at h
    rcases h with h | h
    · refine ⟨tIdx, t, ?_⟩
      rcases hs : scanTable ratio pno tIdx t with _ | c'
      · rw [hs] at h; simp [Option.toList] at h
      · rw [hs] at h; simp [Option.toList] at h; rw [h]
    · exact ih h

lemma mem_candScan {ratio : Ratio} {c : Candidate} :
    ∀ {grids : DocTables} {pno : Nat}, c ∈ candScan ratio grids pno →
      ∃ pno' tIdx t, scanTable ratio pno' tIdx t = some c := by
  intro grids
  induction grids with
  | nil => intro pno h; simp [candScan] at h
  | cons ts rest ih =>
    intro pno h
    rw [candScan, List.mem_append] at h
    rcases h with h | h
    · rcases mem_tablesScan h with ⟨tIdx, t, ht⟩
      exact ⟨pno, tIdx, t, ht⟩
    · exact ih h

lemma candScan_eq_nil_of_noDesc (ratio : Ratio) :
    ∀ (grids : DocTables) (pno : Nat),
      (∀ ts ∈ grids, ∀ t ∈ ts, ∀ cell ∈ t.headD [], descCellB cell = false) →
      candScan ratio grids pno = [] := by
  intro grids
  induction grids with
  | nil => intro pno _; rfl
  | cons ts rest ih =>
    intro pno h
    have hts : ∀ (tl : List RawGrid) (tIdx : Nat),
        (∀ t ∈ tl, ∀ cell ∈ t.headD [], descCellB cell = false) →
        tablesScan ratio pno tl tIdx = [] := by
      intro tl
      induction tl with
      | nil => intro tIdx _; rfl
      | cons t trest ihh =>
        intro tIdx ht
        rw [tablesScan,
          scanTable_none_of_noDesc ratio pno tIdx t (ht t (List.mem_cons_self t trest))]
        simpa using ihh (tIdx + 1) fun x hx => ht x (List.mem_cons_of_mem t hx)
    rw [candScan, hts ts 0 (h ts (List.mem_cons_self ts rest)),
      ih (pno + 1) fun x hx => h x (List.mem_cons_of_mem ts hx)]
    rfl

/-! ### Lemmas about the continuation walk -/

lemma contGo_snd (ratio : Ratio) (bp bd : Nat) :
    ∀ (gs : List (List RawGrid)) (pno : Nat),
      (contGo ratio bp bd gs pno).2 =
        List.range' pno
          ((gs.takeWhile fun ts => (contPage ratio bp bd ts).isSome).length) := by
  intro gs
  induction gs with
  | nil => intro pno; rfl
  | cons ts rest ih =>
    intro pno
    cases h : contPage ratio bp bd ts with
    | none => simp [contGo, h, List.takeWhile_cons]
    | some rows =>
      simp [contGo, h, List.takeWhile_cons, List.range'_succ, ih (pno + 1)]

/-- Claim C2: continuation stitching is strictly consecutive.  The pages used
by the forward scan are exactly the contiguous run starting at
`start_page + 1` whose length is the number of initial consecutive pages that
yield an accepted continuation; the scan stops for good at the first page
without one.  On the spec example (matching continuation tables on pages 3,
4 and 6, none on page 5, start page 2) exactly pages 3 and 4 are stitched,
although page 6 (index 5) still has an accepting table. -/
theorem claim_C2_continuations_contiguous :
    (∀ (ratio : Ratio) (grids : DocTables) (start_page best_ncols bp bd : Nat),
      (extract_consecutive_continuations ratio grids start_page best_ncols bp bd).2 =
        List.range' (start_page + 1)
          (((grids.drop start_page).takeWhile
              fun ts => (contPage ratio bp bd ts).isSome).length)) ∧
    extract_consecutive_continuations none exG2 2 2 0 1 = ([("X", "Y"), ("X", "Y")], [3, 4]) ∧
    (contPage none 0 1 (exG2.getD 5 [])).isSome = true := by
  refine ⟨?_, by decide, by decide⟩
  intro ratio grids start_page best_ncols bp bd
  exact contGo_snd ratio bp bd (grids.drop start_page) (start_page + 1)

/-- Claim C1: the description token is a strict, non-optional gate.  A table
whose header row has no truthy cell containing a case-insensitive whole-word
`description` is never turned into a candidate by the scan, whatever its
other content; conversely every candidate the scan emits has such a header
cell, so a gated table can never be selected as the best table. -/
theorem claim_C1_description_gate :
    (∀ (ratio : Ratio) (pno tIdx : Nat) (table : RawGrid),
      (∀ cell ∈ table.headD [], descCellB cell = false) →
      scanTable ratio pno tIdx table = none) ∧
    (∀ (ratio : Ratio) (grids : DocTables) (c : Candidate),
      c ∈ find_candidate_tables ratio grids →
      ∃ cell ∈ c.table.headD [], descCellB cell = true) := by
  constructor
  · exact scanTable_none_of_noDesc
  · intro ratio grids c hc
    rcases mem_candScan hc with ⟨pno', tIdx, t, ht⟩
    rcases scanTable_some_elim ht with ⟨htbl, hd, -⟩
    rw [htbl]
    exact exists_of_firstIdx_eq_some hd

/-- Witness for C1: a concrete two-row table with headers `Partner` and
`Services` (no description token) is skipped by the scan. -/
theorem claim_C1_witness : scanTable none 1 0 exT1 = none :=
  claim_C1_description_gate.1 none 1 0 exT1 (by decide)

lemma tryContTable_some_ne_nil {ratio : Ratio} {bp bd : Nat} {table : RawGrid}
    {rows : List (String × String)}
    (h : tryContTable ratio bp bd table = some rows) : rows ≠ [] := by
  unfold tryContTable at h
  split at h
  · exact absurd h (by simp)
  · dsimp only at h
    split at h
    · split at h
      next => exact absurd h (by simp)
      next lp ld =>
        split at h
        next => exact absurd h (by simp)
        next ldv =>
          split at h
          · exact absurd h (by simp)
          next hne =>
            simp only [Option.some.injEq] at h
            subst h
            assumption
    · split at h
      · split at h
        · exact absurd h (by simp)
        next hne =>
          simp only [Option.some.injEq] at h
          subst h
          assumption
      · exact absurd h (by simp)

lemma findSome?_first {f : α → Option β} (d : α) :
    ∀ {l : List α} {b : β}, l.findSome? f = some b →
      ∃ i, i < l.length ∧ f (l.getD i d) = some b ∧
        ∀ j, j < i → f (l.getD j d) = none := by
  intro l
  induction l with
  | nil => intro b h; simp [List.findSome?] at h
  | cons a l ih =>
    intro b h
    rw [List.findSome?_cons] at h
    cases ha : f a with
    | some b' =>
      rw [ha] at h
      refine ⟨0, by simp, ?_, by omega⟩
      simpa [List.getD] using ha ▸ h
    | none =>
      rw [ha] at h
      rcases ih h with ⟨i, hi, hf, hprev⟩
      refine ⟨i + 1, by simpa using hi, by simpa [List.getD] using hf, ?_⟩
      intro j hj
      cases j with
      | zero => simpa [List.getD] using ha
      | succ k => simpa [List.getD] using hprev k (by omega)

/-- Claim C7 (amended): on each page the continuation scan uses the first
table, in table order, that is accepted AND whose row extraction is
non-empty; an accepted table with zero extracted rows is skipped in favour of
later tables on the same page.  Only when no table of the page succeeds does
the page count as non-matching, and then the forward scan stops at once. -/
theorem claim_C7_amended_first_nonempty :
    (∀ (ratio : Ratio) (bp bd : Nat) (table : RawGrid) (rows : List (String × String)),
      tryContTable ratio bp bd table = some rows → rows ≠ []) ∧
    (∀ (ratio : Ratio) (bp bd : Nat) (tables : List RawGrid)
        (rows : List (String × String)),
      contPage ratio bp bd tables = some rows →
      ∃ i, i < tables.length ∧ tryContTable ratio bp bd (tables.getD i []) = some rows ∧
        ∀ j, j < i → tryContTable ratio bp bd (tables.getD j []) = none) ∧
    (∀ (ratio : Ratio) (bp bd : Nat) (ts : List RawGrid) (rest : List (List RawGrid))
        (pno : Nat),
      contPage ratio bp bd ts = none → contGo ratio bp bd (ts :: rest) pno = ([], [])) := by
  refine ⟨fun _ _ _ _ _ h => tryContTable_some_ne_nil h, ?_, ?_⟩
  · intro ratio bp bd tables rows h
    exact findSome?_first [] h
  · intro ratio bp bd ts rest pno h
    simp [contGo, h]

/-- Witness for C7 (amended): on the page carrying `exT7a` (eligible, zero
rows) before `exT7b`, the accepted rows come from index 1, and index 0 is
skipped. -/
theorem claim_C7_witness :
    ∃ i, i < ([exT7a, exT7b] : List RawGrid).length ∧
      tryContTable none 0 1 (([exT7a, exT7b] : List RawGrid).getD i []) =
        some [("Acme", "Fiber")] ∧
      ∀ j, j < i →
        tryContTable none 0 1 (([exT7a, exT7b] : List RawGrid).getD j []) = none :=
  claim_C7_amended_first_nonempty.2.1 none 0 1 [exT7a, exT7b] [("Acme", "Fiber")] (by decide)

/-- Counterexample to C7 as stated: table `exT7a` on page 2 satisfies the
repeated-header condition (description token in its header text, partner
column resolvable) and its row extraction is empty, so by the claim the page
would be non-matching and the scan would stop with no pages used; instead the
scan uses the later table `exT7b` of the same page and stitches page 2. -/
theorem claim_C7_counterexample :
    containsWord "description" (lowerStr (headerTextCand (exT7a.headD []))) = true ∧
    firstIdx (fun cell => partnerPatB (norm cell)) (exT7a.headD []) = some 0 ∧
    extract_rows_from_table exT7a 0 1 = [] ∧
    extract_consecutive_continuations none exG7 1 2 0 1 = ([("Acme", "Fiber")], [2]) := by
  decide

lemma score_formula_of_mem {ratio : Ratio} {grids : DocTables} {c : Candidate}
    (hc : c ∈ find_candidate_tables ratio grids) :
    c.score = headerScoreQ (c.table.headD []) + (c.content_count : ℚ) / 100 := by
  rcases mem_candScan hc with ⟨pno', tIdx, t, ht⟩
  rcases scanTable_some_elim ht with ⟨htbl, -, -, -, hs⟩
  rw [htbl]
  exact hs

lemma find_exG3_eq : find_candidate_tables none exG3 = [exCand3A, exCand3B, exCand3C] := rfl

lemma headerScoreQ_tA3 : headerScoreQ (tA3.headD []) = 11 := by
  have h1 : containsWord "partner" (headerTextCand (tA3.headD [])) = false := by decide
  have h2 : containsWord "partners" (headerTextCand (tA3.headD [])) = false := by decide
  have h3 : containsWord "partnership" (headerTextCand (tA3.headD [])) = true := by decide
  rw [headerScoreQ, h1, h2, h3]
  norm_num

lemma headerScoreQ_tB3 : headerScoreQ (tB3.headD []) = 10 := by
  have h1 : containsWord "partner" (headerTextCand (tB3.headD [])) = false := by decide
  have h2 : containsWord "partners" (headerTextCand (tB3.headD [])) = false := by decide
  have h3 : containsWord "partnership" (headerTextCand (tB3.headD [])) = false := by decide
  have h4 : containsWord "partnerships" (headerTextCand (tB3.headD [])) = false := by decide
  rw [headerScoreQ, h1, h2, h3, h4]
  norm_num

lemma headerScoreQ_tC3 : headerScoreQ (tC3.headD []) = 10 := by
  have h1 : containsWord "partner" (headerTextCand (tC3.headD [])) = false := by decide
  have h2 : containsWord "partners" (headerTextCand (tC3.headD [])) = false := by decide
  have h3 : containsWord "partnership" (headerTextCand (tC3.headD [])) = false := by decide
  have h4 : containsWord "partnerships" (headerTextCand (tC3.headD [])) = false := by decide
  rw [headerScoreQ, h1, h2, h3, h4]
  norm_num

lemma contentCount_tA3 : contentCount tA3 0 1 = 1 := by decide

set_option maxRecDepth 4000 in
lemma contentCount_tB3 : contentCount tB3 0 1 = 102 := by decide

lemma contentCount_tC3 : contentCount tC3 0 1 = 1 := by decide

/-- Counterexample to C3 as stated: in the one-page document `exG3`, the
candidate for `tA3` has header score 11 (greater than `tB3`'s 10), but its
final score 11.01 is below `tB3`'s 11.02 — 102 content rows overcome a
1-point header-score gap, so the content-count term can reverse
header-quality ranking. -/
theorem claim_C3_counterexample :
    ∃ c1 ∈ find_candidate_tables none exG3, ∃ c2 ∈ find_candidate_tables none exG3,
      headerScoreQ (c2.table.headD []) < headerScoreQ (c1.table.headD []) ∧
        c1.score < c2.score := by
  refine ⟨exCand3A, by rw [find_exG3_eq]; exact List.mem_cons_self _ _,
          exCand3B, by rw [find_exG3_eq]; exact List.mem_cons_of_mem _ (List.mem_cons_self _ _),
          ?_, ?_⟩
  · show headerScoreQ (tB3.headD []) < headerScoreQ (tA3.headD [])
    rw [headerScoreQ_tA3, headerScoreQ_tB3]
    norm_num
  · show headerScoreQ (tA3.headD []) + (contentCount tA3 0 1 : ℚ) / 100 <
      headerScoreQ (tB3.headD []) + (contentCount tB3 0 1 : ℚ) / 100
    rw [headerScoreQ_tA3, headerScoreQ_tB3, contentCount_tA3, contentCount_tB3]
    norm_num

/-- Claim C3 (amended): every qualifying candidate's score equals
header score plus content count divided by 100, where the header score is 10
plus 2 for a whole-word `partner(s)` in the header text plus 1 for
`partnership(s)`; and a strictly higher header score forces a strictly higher
final score PROVIDED the other candidate's content count exceeds this one's
by less than 100 times the header-score gap (without that bound the
content-count term can reverse the ranking, see the counterexample). -/
theorem claim_C3_amended_score_formula :
    ∀ (ratio : Ratio) (grids : DocTables) (c1 c2 : Candidate),
      c1 ∈ find_candidate_tables ratio grids → c2 ∈ find_candidate_tables ratio grids →
      (c1.score = headerScoreQ (c1.table.headD []) + (c1.content_count : ℚ) / 100 ∧
       c2.score = headerScoreQ (c2.table.headD []) + (c2.content_count : ℚ) / 100) ∧
      (headerScoreQ (c2.table.headD []) < headerScoreQ (c1.table.headD []) →
        (c2.content_count : ℚ) < (c1.content_count : ℚ) +
          100 * (headerScoreQ (c1.table.headD []) - headerScoreQ (c2.table.headD [])) →
        c2.score < c1.score) := by
  intro ratio grids c1 c2 h1 h2
  have e1 := score_formula_of_mem h1
  have e2 := score_formula_of_mem h2
  refine ⟨⟨e1, e2⟩, ?_⟩
  intro _ hbound
  rw [e1, e2]
  linarith

/-- Witness for C3 (amended): for the candidates of `tA3` (header score 11,
1 content row) and `tC3` (header score 10, 1 content row) of `exG3`, the
bound holds and the scores order as the header scores do. -/
theorem claim_C3_witness : exCand3C.score < exCand3A.score := by
  refine (claim_C3_amended_score_formula none exG3 exCand3A exCand3C
    (by rw [find_exG3_eq]; exact List.mem_cons_self _ _)
    (by rw [find_exG3_eq]
        exact List.mem_cons_of_mem _ (List.mem_cons_of_mem _ (List.mem_cons_self _ _))))
    |>.2 ?_ ?_
  · show headerScoreQ (tC3.headD []) < headerScoreQ (tA3.headD [])
    rw [headerScoreQ_tA3, headerScoreQ_tC3]
    norm_num
  · show (exCand3C.content_count : ℚ) < (exCand3A.content_count : ℚ) +
      100 * (headerScoreQ (tA3.headD []) - headerScoreQ (tC3.headD []))
    rw [headerScoreQ_tA3, headerScoreQ_tC3]
    show ((1 : Nat) : ℚ) < ((1 : Nat) : ℚ) + 100 * (11 - 10)
    norm_num

lemma find_exG5_eq : find_candidate_tables none exG5 = [exCand5] := rfl

/-- Counterexample to C5 as stated: the scan never checks that the two column
indices differ.  In `exG5` the single header cell `Partner Description`
matches both patterns, and the emitted candidate has entity column and
description column both equal to 0. -/
theorem claim_C5_counterexample :
    ∃ c ∈ find_candidate_tables none exG5, c.partner_col = c.desc_col :=
  ⟨exCand5, by rw [find_exG5_eq]; exact List.mem_cons_self _ _, rfl⟩

/-- Claim C5 (amended): both column indices of every emitted candidate are
resolvable (non-null) — the description index is what the strict search
returns and the partner index is what the partner resolution returns — but
the two indices need not be distinct (see the counterexample). -/
theorem claim_C5_amended_resolvable :
    ∀ (ratio : Ratio) (grids : DocTables) (c : Candidate),
      c ∈ find_candidate_tables ratio grids →
      descIdx (c.table.headD []) = some c.desc_col ∧
      partnerIdx ratio (c.table.headD []) = some c.partner_col := by
  intro ratio grids c hc
  rcases mem_candScan hc with ⟨pno', tIdx, t, ht⟩
  rcases scanTable_some_elim ht with ⟨htbl, hd, hp, -⟩
  rw [htbl]
  exact ⟨hd, hp⟩

/-- Witness for C5 (amended): the candidate of `exG5` resolves both indices
to column 0. -/
theorem claim_C5_witness :
    descIdx (exCand5.table.headD []) = some exCand5.desc_col ∧
    partnerIdx none (exCand5.table.headD []) = some exCand5.partner_col :=
  claim_C5_amended_resolvable none exG5 exCand5
    (by rw [find_exG5_eq]; exact List.mem_cons_self _ _)

/-- Claim C6: in row extraction, a data row whose description cell is empty
after normalization but which reaches the description index gets as its
description the single-space join of the normalizations of all its non-empty
(truthy) cells from the description index to the row's end; a row that does
not reach the description index gets an empty description (out-of-range reads
are empty). -/
theorem claim_C6_spillover_join :
    (∀ (p d : Nat) (row : List Cell), cellNorm row d = "" → d < row.length →
      (rowRecord p d row).2 = String.intercalate " "
        ((row.drop d).filterMap fun c => if cellTruthy c then some (norm c) else none)) ∧
    (∀ (p d : Nat) (row : List Cell), row.length ≤ d → (rowRecord p d row).2 = "") := by
  constructor
  · intro p d row hdesc hlen
    unfold rowRecord
    dsimp only
    rw [if_pos ⟨hdesc, hlen⟩]
    split
    · rfl
    next hparts =>
      rw [not_not] at hparts
      rw [hparts, hdesc]
      rfl
  · intro p d row hlen
    have hd : cellNorm row d = "" := by
      rw [cellNorm, List.getD_eq_default _ _ hlen]
      rfl
    unfold rowRecord
    dsimp only
    rw [if_neg fun h => absurd h.2 (by omega)]
    exact hd

/-- Witness for C6: the spec's spillover row with description index 1 yields
exactly the description of the specification example. -/
theorem claim_C6_witness : (rowRecord 0 1 exRow6).2 = "provides broadband service" := by
  rw [claim_C6_spillover_join.1 0 1 exRow6 (by decide) (by decide)]
  decide

/-- Counterexample to C4 as stated: `exPdf4` has no qualifying candidate and
a page with non-empty freeform text but no table grid, yet the pipeline
returns an empty result — even under a `nevada` label — because no
text-fallback path exists in the code; nothing is ever produced from text
alone. -/
theorem claim_C4_counterexample :
    find_candidate_tables none exPdf4.grids = [] ∧
    (∃ pg ∈ exPdf4.pages, pg.text ≠ "" ∧ pg.tables = []) ∧
    process_pdf_file none "Nevada Volume 2" exPdf4 = ([], []) ∧
    process_pdf_file none "Ohio" exPdf4 = ([], []) := by
  refine ⟨by decide, ?_, by decide, by decide⟩
  refine ⟨⟨[], "Acme Communications LLC provides fiber internet service to rural areas"⟩,
    List.mem_cons_self _ _, by decide, rfl⟩

/-- Claim C4 (amended): when the strict pipeline is empty, the only fallback
the document-level policy tries is the Special-Case (Nevada) Matcher, and
only when the document label contains `nevada` (case-insensitively); there is
no text-fallback segmenter, and the result of processing depends only on the
table grids of the document, never on its page text. -/
theorem claim_C4_amended_policy :
    (∀ (ratio : Ratio) (state : String) (p1 p2 : Pdf), p1.grids = p2.grids →
      process_pdf_file ratio state p1 = process_pdf_file ratio state p2) ∧
    (∀ (ratio : Ratio) (state : String) (pdf : Pdf),
      (extract_best_partner_table ratio pdf.grids).1 = [] → nevadaNameB state = true →
      process_pdf_file ratio state pdf = extract_nevada_special pdf.grids) ∧
    (∀ (ratio : Ratio) (state : String) (pdf : Pdf),
      nevadaNameB state = false →
      process_pdf_file ratio state pdf = extract_best_partner_table ratio pdf.grids) := by
  refine ⟨?_, ?_, ?_⟩
  · intro ratio state p1 p2 h
    simp only [process_pdf_file, h]
  · intro ratio state pdf h1 h2
    simp only [process_pdf_file, h1, h2]
    simp
  · intro ratio state pdf h
    simp only [process_pdf_file, h]
    simp

/-- Witness for C4 (amended): on `exPdfNev` (a Nevada-style table, no
description header anywhere) with label `Nevada`, the policy result is the
Special-Case Matcher's output. -/
theorem claim_C4_witness :
    process_pdf_file none "Nevada" exPdfNev = extract_nevada_special exPdfNev.grids :=
  claim_C4_amended_policy.2.1 none "Nevada" exPdfNev (by decide) (by decide)

/-! ### Lemmas about the Nevada special handler and the sorted page set -/

lemma mem_insertAsc {m n : Nat} : ∀ {l : List Nat}, m ∈ insertAsc n l ↔ m = n ∨ m ∈ l := by
  intro l
  induction l with
  | nil => simp [insertAsc]
  | cons a l ih =>
    by_cases h : n ≤ a
    · simp [insertAsc, h]
    · simp [insertAsc, h, ih]
      tauto

lemma mem_foldr_insertAsc {m : Nat} :
    ∀ {l : List Nat}, m ∈ l.foldr insertAsc [] ↔ m ∈ l := by
  intro l
  induction l with
  | nil => simp
  | cons a l ih => simp [mem_insertAsc, ih]

lemma mem_dedupAux [DecidableEq α] {x : α} :
    ∀ {l seen : List α}, x ∈ dedupAux seen l ↔ x ∈ l ∧ x ∉ seen := by
  intro l
  induction l with
  | nil => intro seen; simp [dedupAux]
  | cons a l ih =>
    intro seen
    by_cases ha : a ∈ seen
    · rw [dedupAux, if_pos ha, ih]
      constructor
      · exact fun ⟨h1, h2⟩ => ⟨List.mem_cons_of_mem a h1, h2⟩
      · rintro ⟨h1, h2⟩
        rcases List.mem_cons.mp h1 with rfl | h1
        · exact absurd ha h2
        · exact ⟨h1, h2⟩
    · rw [dedupAux, if_neg ha]
      constructor
      · intro h
        rcases List.mem_cons.mp h with rfl | h
        · exact ⟨List.mem_cons_self _ _, ha⟩
        · rcases ih.mp h with ⟨h1, h2⟩
          refine ⟨List.mem_cons_of_mem a h1, fun hx => h2 (List.mem_cons_of_mem a hx)⟩
      · rintro ⟨h1, h2⟩
        rcases List.mem_cons.mp h1 with rfl | h1
        · exact List.mem_cons_self _ _
        · by_cases hxa : x = a
          · subst hxa; exact List.mem_cons_self _ _
          · exact List.mem_cons_of_mem a (ih.mpr ⟨h1, by simp [hxa, h2]⟩)

lemma mem_sortedDedup {m : Nat} {l : List Nat} : m ∈ sortedDedup l ↔ m ∈ l := by
  rw [sortedDedup, mem_foldr_insertAsc, dedupKeepFirst, mem_dedupAux]
  simp

lemma mem_nevadaPage_rows {t : RawGrid} {r : String × String} {pno : Nat} :
    ∀ {tables : List RawGrid}, t ∈ tables → nevadaTableOk t = true →
      r ∈ nevadaRows t → r ∈ (nevadaPage pno tables).1 := by
  intro tables
  induction tables with
  | nil => intro h; simp at h
  | cons t' rest ih =>
    intro ht hok hr
    rcases List.mem_cons.mp ht with rfl | ht
    · simp only [nevadaPage, List.foldr_cons, hok, if_true]
      exact List.mem_append_left _ hr
    · by_cases h' : nevadaTableOk t' = true
      · simp only [nevadaPage, List.foldr_cons, h', if_true]
        exact List.mem_append_right _ (ih ht hok hr)
      · simp only [nevadaPage, List.foldr_cons, h', if_false]
        exact ih ht hok hr

lemma mem_nevadaPage_pages {t : RawGrid} {pno : Nat} :
    ∀ {tables : List RawGrid}, t ∈ tables → nevadaTableOk t = true →
      pno ∈ (nevadaPage pno tables).2 := by
  intro tables
  induction tables with
  | nil => intro h; simp at h
  | cons t' rest ih =>
    intro ht hok
    rcases List.mem_cons.mp ht with rfl | ht
    · simp only [nevadaPage, List.foldr_cons, hok, if_true]
      exact List.mem_cons_self _ _
    · by_cases h' : nevadaTableOk t' = true
      · simp only [nevadaPage, List.foldr_cons, h', if_true]
        exact List.mem_cons_of_mem _ (ih ht hok)
      · simp only [nevadaPage, List.foldr_cons, h', if_false]
        exact ih ht hok

lemma mem_nevadaScan_rows {r : String × String} :
    ∀ (grids : DocTables) (pno i : Nat), i < grids.length →
      r ∈ (nevadaPage (pno + i) (grids.getD i [])).1 → r ∈ (nevadaScan grids pno).1 := by
  intro grids
  induction grids with
  | nil => intro pno i hi; simp at hi
  | cons ts rest ih =>
    intro pno i hi hr
    cases i with
    | zero =>
      rw [nevadaScan]
      exact List.mem_append_left _ hr
    | succ j =>
      rw [nevadaScan]
      refine List.mem_append_right _
        (ih (pno + 1) j (by simp only [List.length_cons] at hi; omega) ?_)
      have he : pno + (j + 1) = pno + 1 + j := by omega
      rw [he] at hr
      exact hr

lemma mem_nevadaScan_pages {n : Nat} :
    ∀ (grids : DocTables) (pno i : Nat), i < grids.length →
      n ∈ (nevadaPage (pno + i) (grids.getD i [])).2 → n ∈ (nevadaScan grids pno).2 := by
  intro grids
  induction grids with
  | nil => intro pno i hi; simp at hi
  | cons ts rest ih =>
    intro pno i hi hn
    cases i with
    | zero =>
      rw [nevadaScan]
      exact List.mem_append_left _ hn
    | succ j =>
      rw [nevadaScan]
      refine List.mem_append_right _
        (ih (pno + 1) j (by simp only [List.length_cons] at hi; omega) ?_)
      have he : pno + (j + 1) = pno + 1 + j := by omega
      rw [he] at hn
      exact hn

lemma mem_nevadaRows_intro {t : RawGrid} {row : List Cell}
    (hrow : row ∈ t.drop 1) (hprov : pyStripS (cellNorm row 0) ≠ "") :
    (cellNorm row 0, nevadaDesc row) ∈ nevadaRows t := by
  have hne : row ≠ [] := by
    intro h
    subst h
    exact hprov (by decide)
  have hemp : row.isEmpty = false := by
    cases row with
    | nil => exact absurd rfl hne
    | cons a l => rfl
  have hlen : 1 ≤ row.length := by
    cases row with
    | nil => exact absurd rfl hne
    | cons a l => simp
  refine List.mem_filterMap.mpr ⟨row, hrow, ?_⟩
  rw [if_neg (by simp [hemp])]
  dsimp only
  rw [if_pos hlen]
  have hcn : norm (row.getD 0 none) = cellNorm row 0 := rfl
  rw [hcn, if_pos hprov]

lemma nevadaRows_fst_ne {t : RawGrid} {r : String × String}
    (hr : r ∈ nevadaRows t) : r.1 ≠ "" := by
  rcases List.mem_filterMap.mp hr with ⟨row, hrow, hf⟩
  by_cases hemp : row.isEmpty
  · rw [if_pos hemp] at hf
    exact absurd hf (by simp)
  · rw [if_neg hemp] at hf
    dsimp only at hf
    by_cases hlen : 1 ≤ row.length
    · rw [if_pos hlen] at hf
      by_cases hprov : pyStripS (norm (row.getD 0 none)) ≠ ""
      · rw [if_pos hprov] at hf
        simp only [Option.some.injEq] at hf
        subst hf
        intro h0
        simp only at h0
        exact hprov (by rw [h0]; decide)
      · rw [if_neg hprov] at hf
        exact absurd hf (by simp)
    · rw [if_neg hlen] at hf
      by_cases hprov : pyStripS "" ≠ ""
      · exact absurd (by decide : pyStripS "" = "") hprov
      · rw [if_neg hprov] at hf
        exact absurd hf (by simp)

lemma nevadaPage_fst_ne {pno : Nat} {r : String × String} :
    ∀ {tables : List RawGrid}, r ∈ (nevadaPage pno tables).1 → r.1 ≠ "" := by
  intro tables
  induction tables with
  | nil => intro h; simp [nevadaPage] at h
  | cons t rest ih =>
    intro hr
    by_cases hok : nevadaTableOk t = true
    · simp only [nevadaPage, List.foldr_cons, hok, if_true] at hr
      rcases List.mem_append.mp hr with h | h
      · exact nevadaRows_fst_ne h
      · exact ih h
    · simp only [nevadaPage, List.foldr_cons, hok, if_false] at hr
      exact ih hr

lemma nevadaScan_fst_ne {r : String × String} :
    ∀ {grids : DocTables} {pno : Nat}, r ∈ (nevadaScan grids pno).1 → r.1 ≠ "" := by
  intro grids
  induction grids with
  | nil => intro pno h; simp [nevadaScan] at h
  | cons ts rest ih =>
    intro pno hr
    rw [nevadaScan] at hr
    rcases List.mem_append.mp hr with h | h
    · exact nevadaPage_fst_ne h
    · exact ih h

/-- Claim C8: in a document with no `description` token in any table header,
the strict pipeline yields no candidate and an empty result; yet every table
whose lowercased joined header text contains all the required words
(provider, award, locations) is accepted by the Special-Case Matcher:
its page joins the contributing page set — on any page, with no continuation
or scoring logic — and each of its data rows with a non-empty column 0
contributes the record (column-0 text, vertical-bar join of the remaining
non-empty cells). -/
theorem claim_C8_nevada_vs_strict :
    ∀ (ratio : Ratio) (grids : DocTables),
      (∀ ts ∈ grids, ∀ t ∈ ts, ∀ cell ∈ t.headD [], descCellB cell = false) →
      find_candidate_tables ratio grids = [] ∧
      extract_best_partner_table ratio grids = ([], []) ∧
      (∀ i, i < grids.length → ∀ t ∈ grids.getD i [], nevadaTableOk t = true →
        (i + 1) ∈ (extract_nevada_special grids).2 ∧
        (∀ row ∈ t.drop 1, pyStripS (cellNorm row 0) ≠ "" →
          (cellNorm row 0, nevadaDesc row) ∈ (extract_nevada_special grids).1)) := by
  intro ratio grids hnd
  have h1 : find_candidate_tables ratio grids = [] :=
    candScan_eq_nil_of_noDesc ratio grids 1 hnd
  refine ⟨h1, ?_, ?_⟩
  · rw [extract_best_partner_table, h1]
    rfl
  · intro i hi t ht hok
    constructor
    · rw [extract_nevada_special]
      dsimp only
      rw [mem_sortedDedup]
      have he : i + 1 = 1 + i := by omega
      rw [he]
      exact mem_nevadaScan_pages grids 1 i hi (mem_nevadaPage_pages ht hok)
    · intro row hrow hprov
      rw [extract_nevada_special]
      dsimp only
      exact mem_nevadaScan_rows grids 1 i hi
        (mem_nevadaPage_rows ht hok (mem_nevadaRows_intro hrow hprov))

/-- Witness for C8: in `exG8` (headers `Provider | Award Amount | Locations
Served`, no description token anywhere), the strict pipeline is empty while
the Special-Case Matcher uses non-contiguous page 3 and emits the row of its
table. -/
theorem claim_C8_witness :
    find_candidate_tables none exG8 = [] ∧
    3 ∈ (extract_nevada_special exG8).2 ∧
    (cellNorm exRow8 0, nevadaDesc exRow8) ∈ (extract_nevada_special exG8).1 := by
  have h := claim_C8_nevada_vs_strict none exG8 (by decide)
  have h2 := h.2.2 2 (by decide) exT8b (by decide) (by decide)
  exact ⟨h.1, h2.1, h2.2 exRow8 (by decide) (by decide)⟩

/-- Claim C10: on the Nevada special path every emitted record has a
non-empty entity: a data row whose first cell normalizes to empty is dropped
even when its remaining cells are non-empty (`exG10`'s second data row), in
contrast with the general row extractor, which keeps a row with an empty
entity and non-empty description. -/
theorem claim_C10_nevada_entity_nonempty :
    (∀ (grids : DocTables) (r : String × String),
      r ∈ (extract_nevada_special grids).1 → r.1 ≠ "") ∧
    extract_nevada_special exG10 = ([("Acme", "x | y")], [1]) ∧
    extract_rows_from_table exT10gen 0 1 = [("", "desc")] := by
  refine ⟨?_, by decide, by decide⟩
  intro grids r hr
  rw [extract_nevada_special] at hr
  dsimp only at hr
  exact nevadaScan_fst_ne hr

/-- Witness for C10: the record emitted from `exG10` has a non-empty entity. -/
theorem claim_C10_witness : (("Acme", "x | y") : String × String).1 ≠ "" :=
  claim_C10_nevada_entity_nonempty.1 exG10 ("Acme", "x | y") (by decide)

/-! ### Lemmas about whitespace collapse, strip, and first-seen dedup -/

lemma collapseWs_cons_of_not_space {c : Char} (rest : List Char)
    (hc : pySpace c = false) : collapseWs (c :: rest) = c :: collapseWs rest := by
  cases rest with
  | nil => simp [collapseWs, hc]
  | cons d r => simp [collapseWs, hc]

lemma okCh_of_isCollapsed_cons {c : Char} {l : List Char}
    (h : isCollapsed (c :: l) = true) : okCh c = true := by
  cases l with
  | nil => simpa [isCollapsed] using h
  | cons d r =>
    simp only [isCollapsed, Bool.and_eq_true] at h
    exact h.1.1

lemma isCollapsed_tail {c : Char} {l : List Char}
    (h : isCollapsed (c :: l) = true) : isCollapsed l = true := by
  cases l with
  | nil => rfl
  | cons d r =>
    simp only [isCollapsed, Bool.and_eq_true] at h
    exact h.2

lemma adj_of_isCollapsed {c d : Char} {r : List Char}
    (h : isCollapsed (c :: d :: r) = true) : (pySpace c && pySpace d) = false := by
  simp only [isCollapsed, Bool.and_eq_true] at h
  have h2 := h.1.2
  cases hx : (pySpace c && pySpace d)
  · rfl
  · rw [hx] at h2
    exact absurd h2 (by simp)

lemma isCollapsed_cons (x : Char) (M : List Char) (hx : okCh x = true)
    (hM : isCollapsed M = true)
    (hadj : pySpace x = false ∨ (∀ e m, M = e :: m → pySpace e = false)) :
    isCollapsed (x :: M) = true := by
  cases M with
  | nil => simpa [isCollapsed] using hx
  | cons e m =>
    have he : (pySpace x && pySpace e) = false := by
      rcases hadj with h | h
      · simp [h]
      · simp [h e m rfl]
    simp [isCollapsed, hx, hM, he]

lemma isCollapsed_collapseWs : ∀ l : List Char, isCollapsed (collapseWs l) = true := by
  intro l
  induction l with
  | nil => rfl
  | cons c rest ih =>
    cases rest with
    | nil =>
      by_cases hc : pySpace c = true
      · simp [collapseWs, hc, isCollapsed, okCh]
      · simp [collapseWs, hc, isCollapsed, okCh]
    | cons d r =>
      simp only [collapseWs]
      by_cases hcd : (pySpace c && pySpace d) = true
      · rw [if_pos hcd]
        exact ih
      · rw [if_neg (by simp [hcd])]
        apply isCollapsed_cons
        · by_cases hc : pySpace c = true
          · simp [hc, okCh]
          · simp [hc, okCh]
        · exact ih
        · by_cases hd : pySpace d = true
          · left
            have hc : pySpace c = false := by
              cases hpc : pySpace c
              · rfl
              · exact absurd (by rw [hpc, hd]; rfl : (pySpace c && pySpace d) = true) hcd
            simp [hc]
          · right
            intro e m hM
            rw [collapseWs_cons_of_not_space r (by simpa using hd)] at hM
            cases hM
            simpa using hd

lemma collapseWs_of_isCollapsed : ∀ l : List Char, isCollapsed l = true → collapseWs l = l := by
  intro l
  induction l with
  | nil => intro _; rfl
  | cons c rest ih =>
    cases rest with
    | nil =>
      intro h
      have hok : okCh c = true := okCh_of_isCollapsed_cons h
      by_cases hc : pySpace c = true
      · have hsp : c = ' ' := by
          simp only [okCh, hc, Bool.not_true, Bool.false_or, decide_eq_true_eq] at hok
          exact hok
        simp [collapseWs, hc, hsp]
      · simp [collapseWs, hc]
    | cons d r =>
      intro h
      have hadj : (pySpace c && pySpace d) = false := adj_of_isCollapsed h
      have hok : okCh c = true := okCh_of_isCollapsed_cons h
      simp only [collapseWs]
      rw [if_neg (by simp [hadj])]
      rw [ih (isCollapsed_tail h)]
      by_cases hc : pySpace c = true
      · have hsp : c = ' ' := by
          simp only [okCh, hc, Bool.not_true, Bool.false_or, decide_eq_true_eq] at hok
          exact hok
        rw [if_pos hc, hsp]
      · rw [if_neg hc]

lemma isCollapsed_dropWhile (p : Char → Bool) :
    ∀ {l : List Char}, isCollapsed l = true → isCollapsed (l.dropWhile p) = true := by
  intro l
  induction l with
  | nil => intro h; exact h
  | cons c rest ih =>
    intro h
    rw [List.dropWhile_cons]
    by_cases hc : p c = true
    · rw [if_pos hc]
      exact ih (isCollapsed_tail h)
    · rw [if_neg hc]
      exact h

lemma dropTrailing_cons (p : Char → Bool) (c : Char) (rest : List Char) :
    dropTrailing p (c :: rest) =
      if (dropTrailing p rest = [] && p c) then [] else c :: dropTrailing p rest := rfl

lemma isCollapsed_dropTrailing (p : Char → Bool) :
    ∀ {l : List Char}, isCollapsed l = true → isCollapsed (dropTrailing p l) = true := by
  intro l
  induction l with
  | nil => intro h; exact h
  | cons c rest ih =>
    intro h
    rw [dropTrailing_cons]
    by_cases hcond : (dropTrailing p rest = [] && p c) = true
    · rw [if_pos hcond]
      rfl
    · rw [if_neg hcond]
      apply isCollapsed_cons
      · exact okCh_of_isCollapsed_cons h
      · exact ih (isCollapsed_tail h)
      · by_cases hc : pySpace c = true
        · right
          intro e m hM
          cases rest with
          | nil => simp [dropTrailing] at hM
          | cons d r' =>
            rw [dropTrailing_cons] at hM
            by_cases hcond2 : (dropTrailing p r' = [] && p d) = true
            · rw [if_pos hcond2] at hM
              exact absurd hM (by simp)
            · rw [if_neg hcond2] at hM
              have hed : e = d := by
                injection hM with h1 _
                exact h1.symm
              subst hed
              have := adj_of_isCollapsed h
              cases hpd : pySpace e
              · rfl
              · rw [hc, hpd] at this
                exact absurd this (by simp)
        · left
          simpa using hc

lemma dropTrailing_idem (p : Char → Bool) :
    ∀ l : List Char, dropTrailing p (dropTrailing p l) = dropTrailing p l := by
  intro l
  induction l with
  | nil => rfl
  | cons c rest ih =>
    rw [dropTrailing_cons]
    by_cases hcond : (dropTrailing p rest = [] && p c) = true
    · rw [if_pos hcond]
      rfl
    · rw [if_neg hcond, dropTrailing_cons, ih]
      rw [if_neg hcond]

lemma dropWhile_head_false {p : Char → Bool} :
    ∀ {l : List Char} {c : Char} {rest : List Char},
      l.dropWhile p = c :: rest → p c = false := by
  intro l
  induction l with
  | nil => intro c rest h; simp [List.dropWhile] at h
  | cons a l' ih =>
    intro c rest h
    by_cases pa : p a = true
    · rw [List.dropWhile_cons, if_pos pa] at h
      exact ih h
    · rw [List.dropWhile_cons, if_neg pa] at h
      injection h with h1 _
      subst h1
      simpa using pa

lemma pyStripL_idem : ∀ l : List Char, pyStripL (pyStripL l) = pyStripL l := by
  intro l
  unfold pyStripL
  have h1 : List.dropWhile pySpace
      (dropTrailing pySpace (List.dropWhile pySpace l)) =
      dropTrailing pySpace (List.dropWhile pySpace l) := by
    cases hm : List.dropWhile pySpace l with
    | nil => simp [dropTrailing]
    | cons c rest =>
      have hc : pySpace c = false := dropWhile_head_false hm
      rw [dropTrailing_cons]
      by_cases hcond : (dropTrailing pySpace rest = [] && pySpace c) = true
      · rw [if_pos hcond]
        rfl
      · rw [if_neg hcond, List.dropWhile_cons, if_neg (by simp [hc])]
  rw [h1, dropTrailing_idem]

lemma isCollapsed_pyStripL {l : List Char} (h : isCollapsed l = true) :
    isCollapsed (pyStripL l) = true :=
  isCollapsed_dropTrailing pySpace (isCollapsed_dropWhile pySpace h)

lemma toList_mk (l : List Char) : (String.mk l).toList = l := rfl

lemma asmNorm_idem (s : String) : asmNorm (asmNorm s) = asmNorm s := by
  rw [asmNorm, asmNorm, toList_mk,
    collapseWs_of_isCollapsed _ (isCollapsed_pyStripL (isCollapsed_collapseWs _)),
    pyStripL_idem]

lemma nodup_dedupAux [DecidableEq α] : ∀ (l seen : List α), (dedupAux seen l).Nodup := by
  intro l
  induction l with
  | nil => intro seen; simp [dedupAux]
  | cons a l ih =>
    intro seen
    by_cases ha : a ∈ seen
    · rw [dedupAux, if_pos ha]
      exact ih seen
    · rw [dedupAux, if_neg ha]
      refine List.nodup_cons.mpr ⟨?_, ih (a :: seen)⟩
      intro hmem
      exact (mem_dedupAux.mp hmem).2 (List.mem_cons_self a seen)

lemma dedupAux_eq_self [DecidableEq α] :
    ∀ (l seen : List α), l.Nodup → (∀ x ∈ l, x ∉ seen) → dedupAux seen l = l := by
  intro l
  induction l with
  | nil => intro seen _ _; rfl
  | cons a l ih =>
    intro seen hnd hseen
    rw [dedupAux, if_neg (hseen a (List.mem_cons_self a l))]
    congr 1
    refine ih (a :: seen) (List.nodup_cons.mp hnd).2 ?_
    intro x hx
    simp only [List.mem_cons, not_or]
    exact ⟨fun he => (List.nodup_cons.mp hnd).1 (he ▸ hx),
      hseen x (List.mem_cons_of_mem a hx)⟩

lemma dedupAux_eq_spec [DecidableEq α] :
    ∀ (l seen : List α),
      dedupAux seen l = dedupFirstSeen_spec (l.filter fun x => x ∉ seen) := by
  intro l
  induction l with
  | nil => intro seen; simp [dedupAux, dedupFirstSeen_spec]
  | cons a l ih =>
    intro seen
    by_cases ha : a ∈ seen
    · rw [dedupAux, if_pos ha, ih]
      congr 1
      rw [List.filter_cons, if_neg (by simpa using ha)]
    · rw [dedupAux, if_neg ha, ih, List.filter_cons, if_pos (by simpa using ha),
        dedupFirstSeen_spec]
      congr 1
      rw [List.filter_filter]
      congr 1
      refine List.filter_congr ?_
      intro x hx
      by_cases hxa : x = a
      · simp [hxa, ha]
      · by_cases hxs : x ∈ seen
        · simp [hxa, hxs]
        · simp [hxa, hxs]

lemma mem_assemble_imp {rows : List (String × String)} {r : String × String}
    (hr : r ∈ assemble rows) :
    r ∈ ((rows.map fun r => (asmNorm r.1, asmNorm r.2)).filter
      fun r => r.1 ≠ "" ∨ r.2 ≠ "") := by
  rw [assemble, dedupKeepFirst] at hr
  exact (mem_dedupAux.mp hr).1

lemma assemble_eq_self {l : List (String × String)}
    (hfix : ∀ r ∈ l, ((asmNorm r.1, asmNorm r.2) : String × String) = r)
    (hpred : ∀ r ∈ l, r.1 ≠ "" ∨ r.2 ≠ "")
    (hnd : l.Nodup) :
    assemble l = l := by
  rw [assemble]
  have hmap : (l.map fun r => ((asmNorm r.1, asmNorm r.2) : String × String)) = l := by
    rw [List.map_congr_left (g := id) fun a ha => hfix a ha, List.map_id]
  rw [hmap, List.filter_eq_self.mpr fun a ha => by simpa using hpred a ha, dedupKeepFirst]
  exact dedupAux_eq_self l [] hnd fun x _ => List.not_mem_nil x

/-- Claim C9: the Assembler's deduplication is idempotent and order-stable:
applying it twice equals applying it once; the result is exactly the
first-seen-order, first-occurrence deduplication (rendered by the
specification-side `dedupFirstSeen_spec`) of the normalized rows with the
both-empty rows dropped; a record with both fields empty never survives; and
the full pipeline on the spec example (`Partner Name` / `Description of
Services` with two identical `Acme Co` rows) yields exactly one record. -/
theorem claim_C9_assembler_dedup :
    (∀ rows : List (String × String), assemble (assemble rows) = assemble rows) ∧
    (∀ rows : List (String × String),
      assemble rows = dedupFirstSeen_spec
        ((rows.map fun r => (asmNorm r.1, asmNorm r.2)).filter
          fun r => r.1 ≠ "" ∨ r.2 ≠ "")) ∧
    (∀ rows : List (String × String), (("", "") : String × String) ∉ assemble rows) ∧
    extract_best_partner_table none exG9 = ([("Acme Co", "Fiber buildout")], [1]) := by
  refine ⟨?_, ?_, ?_, by decide⟩
  · intro rows
    refine assemble_eq_self ?_ ?_ ?_
    · intro r hr
      rcases List.mem_map.mp (List.mem_filter.mp (mem_assemble_imp hr)).1 with ⟨s, -, hs⟩
      rw [← hs]
      simp [asmNorm_idem]
    · intro r hr
      simpa using (List.mem_filter.mp (mem_assemble_imp hr)).2
    · rw [assemble, dedupKeepFirst]
      exact nodup_dedupAux _ []
  · intro rows
    rw [assemble, dedupKeepFirst, dedupAux_eq_spec]
    congr 1
    refine List.filter_eq_self.mpr ?_
    intro a _
    simp
  · intro rows hmem
    have h := (List.mem_filter.mp (mem_assemble_imp hmem)).2
    simp at h

/-- Witness for C9: the Assembler keeps no both-empty record on a concrete
input holding one. -/
theorem claim_C9_witness :
    (("", "") : String × String) ∉ assemble [("Acme Co", "Fiber buildout"), ("", "")] :=
  claim_C9_assembler_dedup.2.2.1 [("Acme Co", "Fiber buildout"), ("", "")]

end Extract
